import Mathlib

/-!
Shallow embedding of `extension/popup.js` from the youtube-rag-ai-assistant
repository.  JS strings are modelled as `List Char`; fallible JS values
(`NaN`, `null`, `undefined`) are modelled with `Option`.  Each definition
mirrors one source function or handler; the theorems at the end settle the
frozen claims about the specification.
-/

/-- Convenience: the character list underlying a Lean string literal. -/
def str (s : String) : List Char := s.data

/-- JS whitespace test (the ASCII portion of the regex class `\s`; every
whitespace character appearing in this code base is covered). -/
def isWs (c : Char) : Bool :=
  c == ' ' || c == '\t' || c == '\n' || c == '\r' || c == '\x0b' || c == '\x0c'

/-- JS `String.prototype.trim`: strip whitespace from both ends. -/
def jsTrim (s : List Char) : List Char :=
  ((s.dropWhile isWs).reverse.dropWhile isWs).reverse

/-- Numeric value of a decimal digit character. -/
def digitVal (c : Char) : Nat := c.toNat - 48

/-- Value of a decimal digit string (fold as `parseInt` accumulates). -/
def parseDigs (l : List Char) : Nat := l.foldl (fun a c => 10 * a + digitVal c) 0

/-- The digit-consuming part of JS `parseInt`: take the leading run of decimal
digits; an empty run is `NaN` (`none`). -/
def parseDigitsOpt (s : List Char) : Option Nat :=
  match s.takeWhile Char.isDigit with
  | [] => none
  | ds => some (parseDigs ds)

/-- JS `parseInt(s)` in base 10: skip leading whitespace, optional sign, then
a leading run of decimal digits; `NaN` is `none`.  (The hexadecimal `0x`
prefix of `parseInt` is irrelevant here: every call site passes a field of a
colon-separated timestamp.) -/
def jsParseInt (s : List Char) : Option Int :=
  match s.dropWhile isWs with
  | [] => none
  | c :: r =>
    if c == '-' then (parseDigitsOpt r).map (fun n => -(n : Int))
    else if c == '+' then (parseDigitsOpt r).map (fun n => (n : Int))
    else (parseDigitsOpt (c :: r)).map (fun n => (n : Int))

/-- JS `hms.split(':')`. -/
def splitColon : List Char → List (List Char)
  | [] => [[]]
  | c :: rest =>
    if c == ':' then [] :: splitColon rest
    else
      match splitColon rest with
      | h :: t => (c :: h) :: t
      | [] => [[c]]

/-- The accumulation loop of `timestampToSeconds`:
`seconds += parseInt(parts[i]) * Math.pow(60, i)` over the reversed parts,
with `NaN` (`none`) poisoning the whole sum exactly as in JS arithmetic. -/
def tsSum : Nat → List (List Char) → Option Int
  | _, [] => some 0
  | i, p :: ps =>
    match jsParseInt p, tsSum (i + 1) ps with
    | some v, some r => some (v * (60 : Int) ^ i + r)
    | _, _ => none

/-- Source `timestampToSeconds(hms)`: split on `':'`, reverse, and sum
`parseInt(part) * 60^index`. -/
def timestampToSeconds (hms : List Char) : Option Int :=
  tsSum 0 (splitColon hms).reverse

/-- Decimal digit character for a value below ten. -/
def digitChar : Nat → Char
  | 0 => '0'
  | 1 => '1'
  | 2 => '2'
  | 3 => '3'
  | 4 => '4'
  | 5 => '5'
  | 6 => '6'
  | 7 => '7'
  | 8 => '8'
  | 9 => '9'
  | _ => '?'

/-- Fuelled decimal printing of a natural number (the fuel is only a
termination device; `natDigits` always supplies enough). -/
def natDigitsAux : Nat → Nat → List Char
  | 0, _ => []
  | fuel + 1, n =>
    if n < 10 then [digitChar n]
    else natDigitsAux fuel (n / 10) ++ [digitChar (n % 10)]

/-- Decimal digit string of a natural number, as JS prints integers. -/
def natDigits (n : Nat) : List Char := natDigitsAux (n + 1) n

/-- JS string interpolation of the number produced by `timestampToSeconds`
(an integer, or `NaN`). -/
def numToString : Option Int → List Char
  | none => str "NaN"
  | some i => if i < 0 then '-' :: natDigits i.natAbs else natDigits i.toNat

/-- Two-digit zero-padded decimal rendering (for values below one hundred). -/
def pad2 (n : Nat) : List Char := [digitChar (n / 10), digitChar (n % 10)]

/-- Modelled from the spec: the Citation Mapper's `map_to_citation` lives in
the Flask backend, whose source is not part of this repository.  The spec
fixes its output format: the canonical timestamp label is `MM:SS` when the
hour component is zero and `HH:MM:SS` otherwise, zero-padding the minute and
second fields. -/
def map_to_citation (d : Nat) : List Char :=
  if d < 3600 then pad2 (d / 60) ++ ':' :: pad2 (d % 60)
  else natDigits (d / 3600) ++ ':' :: pad2 (d % 3600 / 60) ++ ':' :: pad2 (d % 60)

/-!
The `linkifyTimestamps` regex
`[\[\(]?(\d{1,2}:\d{2}(?::\d{2})?)(?:\s*-\s*(\d{1,2}:\d{2}(?::\d{2})?))?[\]\)]?`
is embedded as an explicit matcher with JS backtracking semantics.
-/

/-- Match `\d{1,2}:\d{2}` at the head of the string, greedy on the first
field with JS backtracking (two digits tried first; the one-digit retry can
only succeed when the second character is a colon).  Returns the number of
characters consumed. -/
def matchCore (s : List Char) : Option Nat :=
  match s with
  | a :: b :: rest =>
    if a.isDigit && b.isDigit then
      match rest with
      | c :: d :: e :: _ => if c == ':' && d.isDigit && e.isDigit then some 5 else none
      | _ => none
    else if a.isDigit && b == ':' then
      match rest with
      | c :: d :: _ => if c.isDigit && d.isDigit then some 4 else none
      | _ => none
    else none
  | _ => none

/-- Match the optional third field `(?::\d{2})?`: consumed length (0 when the
optional group fails). -/
def matchOptSec (s : List Char) : Nat :=
  match s with
  | c :: d :: e :: _ => if c == ':' && d.isDigit && e.isDigit then 3 else 0
  | _ => 0

/-- Match one full timestamp `\d{1,2}:\d{2}(?::\d{2})?` at the head. -/
def matchTs (s : List Char) : Option Nat :=
  match matchCore s with
  | none => none
  | some n => some (n + matchOptSec (s.drop n))

/-- Length of the leading whitespace run (`\s*`, maximal munch; no shorter
match can ever be needed because the following literal `-` is not
whitespace). -/
def wsLen (s : List Char) : Nat := (s.takeWhile isWs).length

/-- Match the optional range tail `(?:\s*-\s*(\d{1,2}:\d{2}(?::\d{2})?))?`:
consumed length (0 when the optional group fails). -/
def matchOptRange (s : List Char) : Nat :=
  match s.drop (wsLen s) with
  | c :: rest =>
    if c == '-' then
      match matchTs (rest.drop (wsLen rest)) with
      | some n2 => wsLen s + 1 + wsLen rest + n2
      | none => 0
    else 0
  | [] => 0

/-- Match the optional closing bracket `[\]\)]?`. -/
def matchOptClose (s : List Char) : Nat :=
  match s with
  | c :: _ => if c == ']' || c == ')' then 1 else 0
  | [] => 0

/-- Match the regex body after the optional opening bracket.  Returns the
consumed length together with capture group 1 (the start timestamp). -/
def matchBody (s : List Char) : Option (Nat × List Char) :=
  match matchTs s with
  | none => none
  | some n =>
    let r := matchOptRange (s.drop n)
    let c := matchOptClose (s.drop (n + r))
    some (n + r + c, s.take n)

/-- Match the whole regex at the start of `s`.  A consumed opening bracket
whose body fails cannot be rescued by the zero-width alternative (the next
mandatory token `\d` fails on the bracket itself), exactly as in JS. -/
def matchAt (s : List Char) : Option (Nat × List Char) :=
  match s with
  | [] => none
  | c :: rest =>
    if c == '[' || c == '(' then
      match matchBody rest with
      | some (n, g) => some (n + 1, g)
      | none => none
    else matchBody (c :: rest)

/-- The replacement produced for one regex match: the source template
`<a href="#" class="time-link" data-time="${seconds}">${match}</a>` with
`seconds = timestampToSeconds(startTime)`. -/
def anchorFor (matched grp : List Char) : List Char :=
  str "<a href=\"#\" class=\"time-link\" data-time=\"" ++
    numToString (timestampToSeconds grp) ++ str "\">" ++ matched ++ str "</a>"

/-- The scan of `text.replace(regex, ...)`: leftmost matches, each replaced
by its anchor, the scan resuming right after the match; characters outside
matches are copied.  The fuel argument only bounds the recursion; the
wrapper passes the string length, which always suffices. -/
def linkifyFuel : Nat → List Char → List Char
  | 0, s => s
  | _ + 1, [] => []
  | fuel + 1, c :: cs =>
    match matchAt (c :: cs) with
    | some (n, g) =>
      anchorFor ((c :: cs).take n) g ++ linkifyFuel fuel ((c :: cs).drop n)
    | none => c :: linkifyFuel fuel cs

/-- Source `linkifyTimestamps(text)`. -/
def linkifyTimestamps (s : List Char) : List Char := linkifyFuel s.length s

/-- Recogniser for the timestamp strings of the claim grammar: `M:SS`,
`MM:SS`, optionally extended with a two-digit `:SS` third field.  The four
admissible shapes have pairwise distinct lengths. -/
def isTsB : List Char → Bool
  | [a, b, c, d] => a.isDigit && b == ':' && c.isDigit && d.isDigit
  | [a, b, c, d, e] => a.isDigit && b.isDigit && c == ':' && d.isDigit && e.isDigit
  | [a, b, c, d, e, f, g] =>
    a.isDigit && b == ':' && c.isDigit && d.isDigit && e == ':' && f.isDigit && g.isDigit
  | [a, b, c, d, e, f, g, h] =>
    a.isDigit && b.isDigit && c == ':' && d.isDigit && e.isDigit && f == ':' &&
      g.isDigit && h.isDigit
  | _ => false

/-- A timestamp marker of one of the three claimed forms. -/
inductive Marker where
  | bare (ts : List Char)
  | bracket (ts : List Char)
  | range (ts1 ts2 : List Char)
deriving DecidableEq

/-- The literal text of a marker inside the answer string. -/
def Marker.render : Marker → List Char
  | .bare t => t
  | .bracket t => '[' :: t ++ [']']
  | .range t1 t2 => '(' :: t1 ++ ' ' :: '-' :: ' ' :: t2 ++ [')']

/-- The start (first) timestamp of a marker. -/
def Marker.startTs : Marker → List Char
  | .bare t => t
  | .bracket t => t
  | .range t1 _ => t1

/-- Well-formedness: every timestamp field has one of the claimed shapes. -/
def Marker.wfB : Marker → Bool
  | .bare t => isTsB t
  | .bracket t => isTsB t
  | .range t1 t2 => isTsB t1 && isTsB t2

/-- A character of surrounding answer text that cannot interact with a
marker match: not a digit, not a colon, not a dash, not a bracket. -/
def safeCharB (c : Char) : Bool :=
  !c.isDigit && !(c == ':') && !(c == '-') && !(c == '[') && !(c == ']') &&
    !(c == '(') && !(c == ')')

/-- A run of surrounding answer text made of non-interacting characters. -/
def safeStrB (l : List Char) : Bool := l.all safeCharB

/-- Well-formed marker/separator alternation: each marker is well formed,
each separator is non-interacting, and only the final separator may be
empty (two immediately adjacent markers could fuse into one match). -/
def GoodB : List (Marker × List Char) → Bool
  | [] => true
  | (m, t) :: rest => m.wfB && safeStrB t && (rest.isEmpty || !t.isEmpty) && GoodB rest

/-- An answer string assembled from a leading text run and an alternating
list of markers and trailing text runs. -/
def assemble : List Char → List (Marker × List Char) → List Char
  | t, [] => t
  | t, (m, t') :: rest => t ++ m.render ++ assemble t' rest

/-- The same answer with every marker replaced by its anchor, everything
else untouched: the claimed output of `linkifyTimestamps`. -/
def assembleLinked : List Char → List (Marker × List Char) → List Char
  | t, [] => t
  | t, (m, t') :: rest => t ++ anchorFor m.render m.startTs ++ assembleLinked t' rest

/-!  DOM scraper and session model. -/

/-- One `ytd-transcript-segment-renderer` node: the text content of its
`.segment-timestamp` and `.segment-text` children, when those exist. -/
structure SegmentNode where
  timeEl : Option (List Char)
  textEl : Option (List Char)
deriving DecidableEq

/-- One record sent to the backend: `{time, text}`. -/
structure TranscriptRecord where
  time : List Char
  text : List Char
deriving DecidableEq

/-- JS `x?.textContent.trim() || dflt`: a missing element (`undefined`) and
an all-whitespace text (trimming to the falsy `""`) both fall back to the
default. -/
def jsStrOrDefault (x : Option (List Char)) (dflt : List Char) : List Char :=
  match x with
  | none => dflt
  | some t => if jsTrim t = [] then dflt else jsTrim t

/-- The per-segment mapping inside `surgicalExtract`. -/
def extractRecord (s : SegmentNode) : TranscriptRecord :=
  { time := jsStrOrDefault s.timeEl (str "0:00"), text := jsStrOrDefault s.textEl [] }

/-- Source `surgicalExtract`: `segments.length === 0 ? null : Array.from(segments).map(...)`. -/
def surgicalExtract (segments : List SegmentNode) : Option (List TranscriptRecord) :=
  if segments.isEmpty then none else some (segments.map extractRecord)

/-- One chat bubble persisted in a session's history. -/
structure ChatMsg where
  sender : List Char
  text : List Char
  isHTML : Bool
deriving DecidableEq

/-- One record of `chrome.storage.local`'s `sessions[id]`. -/
structure SessionRecord where
  timestamp : List Char
  videoUrl : List Char
  chatHistory : List ChatMsg
  transcriptData : List TranscriptRecord
deriving DecidableEq

/-- `data.sessions[id]` on the association-list model of the sessions
object. -/
def lookupSession (sessions : List (List Char × SessionRecord)) (id : List Char) :
    Option SessionRecord :=
  (sessions.find? (fun p => p.1 == id)).map (fun p => p.2)

/-- Observable effects of the resync click handler after the scrape. -/
structure ResyncEffect where
  saveRequest : Option (List TranscriptRecord)
  newSession : Option (List Char × SessionRecord)
  syncFailed : Bool
deriving DecidableEq

/-- The `try`/`catch` of the resync handler, from the point where
`surgicalExtract`'s result is available: a `null` result throws before any
fetch, so no `/save_transcript` request is issued, no session is stored and
the sync-failure message is shown; otherwise the transcript is POSTed and,
on an ok response, a fresh session record is stored. -/
def resyncAfterScrape (extractResult : Option (List TranscriptRecord)) (serverOk : Bool)
    (tabUrl now newId : List Char) : ResyncEffect :=
  match extractResult with
  | none => { saveRequest := none, newSession := none, syncFailed := true }
  | some transcriptData =>
    if serverOk then
      { saveRequest := some transcriptData
        newSession := some (newId,
          { timestamp := now, videoUrl := tabUrl, chatHistory := [],
            transcriptData := transcriptData })
        syncFailed := false }
    else
      { saveRequest := some transcriptData, newSession := none, syncFailed := true }

/-- Observable effects of `loadSpecificSession`. -/
structure LoadEffect where
  saveRequest : Option (List TranscriptRecord)
  replayed : List ChatMsg
  inputsEnabled : Bool
  failMsgShown : Bool
  currentId : Option (List Char)
deriving DecidableEq

/-- Source `loadSpecificSession(id)`: look the session up, POST its stored
`transcriptData` to `/save_transcript`, and only on an ok response replay
the chat history and enable the question input and ask button; otherwise
show the failure message and leave the inputs untouched. -/
def loadSpecificSession (sessions : List (List Char × SessionRecord)) (id : List Char)
    (responseOk : Bool) : LoadEffect :=
  match lookupSession sessions id with
  | none =>
    { saveRequest := none, replayed := [], inputsEnabled := false,
      failMsgShown := false, currentId := none }
  | some session =>
    { saveRequest := some session.transcriptData
      replayed := if responseOk then session.chatHistory else []
      inputsEnabled := responseOk
      failMsgShown := !responseOk
      currentId := some id }

/-- The JSON body of a `/chat` request. -/
structure ChatRequest where
  question : List Char
  mode : List Char
deriving DecidableEq

/-- JS truthiness of the stored token: absent (`undefined`) and the empty
string are both falsy. -/
def jsTokenPresent : Option (List Char) → Bool
  | none => false
  | some tok => !tok.isEmpty

/-- The ask-button click handler up to the `/chat` fetch: trim the input,
bail out on an empty question or a missing/empty token, otherwise issue the
request `{question, mode}` with mode `"detailed"` or `"concise"`. -/
def askHandler (inputValue : List Char) (isDetailed : Bool)
    (hfToken : Option (List Char)) : Option ChatRequest :=
  if jsTrim inputValue = [] then none
  else if jsTokenPresent hfToken = false then none
  else some { question := jsTrim inputValue,
              mode := if isDetailed then str "detailed" else str "concise" }

/-- Local state observed after `performFullClear`. -/
structure ClearResult where
  sessions : List (List Char × SessionRecord)
  currentId : Option (List Char)
deriving DecidableEq

/-- `delete data.sessions[currentSessionId]`. -/
def removeSession (sessions : List (List Char × SessionRecord)) (id : List Char) :
    List (List Char × SessionRecord) :=
  sessions.filter (fun p => !(p.1 == id))

/-- Source `performFullClear`: without a current session only the chat
container is cleared; an unconfirmed dialog returns; the `/clear_context`
fetch comes first, and when it throws the `catch` path runs, leaving the
stored sessions and `currentSessionId` untouched; only after a successful
fetch is the record deleted and the current id reset. -/
def performFullClear (sessions : List (List Char × SessionRecord))
    (currentId : Option (List Char)) (confirmed fetchThrows : Bool) : ClearResult :=
  match currentId with
  | none => { sessions := sessions, currentId := none }
  | some id =>
    if !confirmed then { sessions := sessions, currentId := some id }
    else if fetchThrows then { sessions := sessions, currentId := some id }
    else { sessions := removeSession sessions id, currentId := none }

/-- Source `clearSelectedHistory`: the checked checkbox values are collected;
with none checked the function returns before touching storage (the Boolean
records whether a storage write happened); otherwise exactly the selected
ids are deleted and the result written back. -/
def clearSelectedHistory (checkedIds : List (List Char))
    (sessions : List (List Char × SessionRecord)) :
    List (List Char × SessionRecord) × Bool :=
  if checkedIds.isEmpty then (sessions, false)
  else (sessions.filter (fun p => !(checkedIds.contains p.1)), true)

/-- The storage effect of `appendMessage`: when a message should be saved
and a current session exists in storage, push the message onto its
`chatHistory` and refresh its `timestamp`, leaving every other field and
every other session untouched. -/
def appendMessageStore (sessions : List (List Char × SessionRecord))
    (currentId : Option (List Char)) (shouldSave : Bool) (msg : ChatMsg)
    (now : List Char) : List (List Char × SessionRecord) :=
  match currentId, shouldSave with
  | some id, true =>
    sessions.map (fun p =>
      if p.1 == id then
        (p.1, { p.2 with chatHistory := p.2.chatHistory ++ [msg], timestamp := now })
      else p)
  | _, _ => sessions

/-- The first character of `s` (if any) cannot extend a preceding timestamp
match: it is not a digit, not a colon and not a closing bracket. -/
def headSafeB : List Char → Bool
  | [] => true
  | c :: _ => !c.isDigit && !(c == ':') && !(c == ']') && !(c == ')')

/-- The first non-whitespace character of `s` (if any) is not a dash, so the
optional `\s*-\s*…` range tail of the regex cannot reach across `s`. -/
def noWsDashB : List Char → Bool
  | [] => true
  | c :: cs => if isWs c then noWsDashB cs else !(c == '-')

/-- A concrete session record used by the closed witness statements. -/
def wSession : SessionRecord :=
  { timestamp := str "t0", videoUrl := str "u", chatHistory := [],
    transcriptData := [] }

/-- A concrete chat message used by the closed witness statements. -/
def wMsg : ChatMsg := { sender := str "user", text := str "hi", isHTML := false }

/-!  Helper lemmas. -/

theorem beq_false_of_digit (c x : Char) (h : c.isDigit = true)
    (hx : x.isDigit = false) : (c == x) = false := by
  rw [beq_eq_false_iff_ne]
  rintro rfl
  rw [h] at hx
  cases hx

theorem isWs_of_digit (c : Char) (h : c.isDigit = true) : isWs c = false := by
  rw [isWs,
    beq_false_of_digit c ' ' h (by decide),
    beq_false_of_digit c '\t' h (by decide),
    beq_false_of_digit c '\n' h (by decide),
    beq_false_of_digit c '\r' h (by decide),
    beq_false_of_digit c '\x0b' h (by decide),
    beq_false_of_digit c '\x0c' h (by decide)]
  rfl

theorem safeCharB_facts (c : Char) (h : safeCharB c = true) :
    c.isDigit = false ∧ (c == ':') = false ∧ (c == '-') = false ∧
    (c == '[') = false ∧ (c == ']') = false ∧ (c == '(') = false ∧
    (c == ')') = false := by
  simp only [safeCharB, Bool.and_eq_true, Bool.not_eq_true'] at h
  exact ⟨h.1.1.1.1.1.1, h.1.1.1.1.1.2, h.1.1.1.1.2, h.1.1.1.2, h.1.1.2, h.1.2, h.2⟩

theorem matchCore_one (a b c : Char) (s : List Char) (ha : a.isDigit = true)
    (hb : b.isDigit = true) (hc : c.isDigit = true) :
    matchCore (a :: ':' :: b :: c :: s) = some 4 := by
  simp [matchCore, ha, hb, hc]

theorem matchCore_two (a b c d : Char) (s : List Char) (ha : a.isDigit = true)
    (hb : b.isDigit = true) (hc : c.isDigit = true) (hd : d.isDigit = true) :
    matchCore (a :: b :: ':' :: c :: d :: s) = some 5 := by
  simp [matchCore, ha, hb, hc, hd]

theorem matchOptSec_sec (c d : Char) (s : List Char) (hc : c.isDigit = true)
    (hd : d.isDigit = true) : matchOptSec (':' :: c :: d :: s) = 3 := by
  simp [matchOptSec, hc, hd]

theorem matchOptSec_zero (s : List Char) (h : s.head? ≠ some ':') :
    matchOptSec s = 0 := by
  match s with
  | [] => rfl
  | [c] => rfl
  | [c, d] => rfl
  | c :: d :: e :: t =>
    have hc : (c == ':') = false := by
      rw [beq_eq_false_iff_ne]
      rintro rfl
      exact h rfl
    simp [matchOptSec, hc]

theorem isTsB_head (t : List Char) (ht : isTsB t = true) :
    ∃ a t', t = a :: t' ∧ a.isDigit = true := by
  match t, ht with
  | [a, b, c, d], ht =>
    refine ⟨a, _, rfl, ?_⟩
    simp only [isTsB, Bool.and_eq_true] at ht
    exact ht.1.1.1
  | [a, b, c, d, e], ht =>
    refine ⟨a, _, rfl, ?_⟩
    simp only [isTsB, Bool.and_eq_true] at ht
    exact ht.1.1.1.1
  | [a, b, c, d, e, f, g], ht =>
    refine ⟨a, _, rfl, ?_⟩
    simp only [isTsB, Bool.and_eq_true] at ht
    exact ht.1.1.1.1.1.1
  | [a, b, c, d, e, f, g, h'], ht =>
    refine ⟨a, _, rfl, ?_⟩
    simp only [isTsB, Bool.and_eq_true] at ht
    exact ht.1.1.1.1.1.1.1

theorem matchTs_of_isTs (t s : List Char) (ht : isTsB t = true)
    (hs : s.head? ≠ some ':') : matchTs (t ++ s) = some t.length := by
  match t, ht with
  | [a, b, c, d], ht =>
    simp only [isTsB, Bool.and_eq_true, beq_iff_eq] at ht
    obtain ⟨⟨⟨ha, hb⟩, hc⟩, hd⟩ := ht
    subst hb
    have h4 : ([a, ':', c, d] ++ s).drop 4 = s := rfl
    simp [matchTs, matchCore_one a c d s ha hc hd, h4, matchOptSec_zero s hs]
  | [a, b, c, d, e], ht =>
    simp only [isTsB, Bool.and_eq_true, beq_iff_eq] at ht
    obtain ⟨⟨⟨⟨ha, hb⟩, hc⟩, hd⟩, he⟩ := ht
    subst hc
    have h5 : ([a, b, ':', d, e] ++ s).drop 5 = s := rfl
    simp [matchTs, matchCore_two a b d e s ha hb hd he, h5, matchOptSec_zero s hs]
  | [a, b, c, d, e, f, g], ht =>
    simp only [isTsB, Bool.and_eq_true, beq_iff_eq] at ht
    obtain ⟨⟨⟨⟨⟨⟨ha, hb⟩, hc⟩, hd⟩, he⟩, hf⟩, hg⟩ := ht
    subst hb; subst he
    have h4 : ([a, ':', c, d, ':', f, g] ++ s).drop 4 = ':' :: f :: g :: s := rfl
    simp [matchTs, matchCore_one a c d (':' :: f :: g :: s) ha hc hd, h4,
      matchOptSec_sec f g s hf hg]
  | [a, b, c, d, e, f, g, h'], ht =>
    simp only [isTsB, Bool.and_eq_true, beq_iff_eq] at ht
    obtain ⟨⟨⟨⟨⟨⟨⟨ha, hb⟩, hc⟩, hd⟩, he⟩, hf⟩, hg⟩, hh⟩ := ht
    subst hc; subst hf
    have h5 : ([a, b, ':', d, e, ':', g, h'] ++ s).drop 5 = ':' :: g :: h' :: s := rfl
    simp [matchTs, matchCore_two a b d e (':' :: g :: h' :: s) ha hb hd he, h5,
      matchOptSec_sec g h' s hg hh]

theorem wsLen_cons_true (c : Char) (cs : List Char) (h : isWs c = true) :
    wsLen (c :: cs) = wsLen cs + 1 := by
  simp [wsLen, List.takeWhile_cons, h]

theorem wsLen_cons_false (c : Char) (cs : List Char) (h : isWs c = false) :
    wsLen (c :: cs) = 0 := by
  simp [wsLen, List.takeWhile_cons, h]

theorem noWsDashB_head_ne_dash (s : List Char) (h : noWsDashB s = true)
    (c : Char) (rest : List Char) (hdrop : s.drop (wsLen s) = c :: rest) :
    (c == '-') = false := by
  induction s with
  | nil => simp [wsLen] at hdrop
  | cons a s ih =>
    by_cases hw : isWs a = true
    · rw [wsLen_cons_true a s hw] at hdrop
      rw [List.drop_succ_cons] at hdrop
      have h' : noWsDashB s = true := by
        simpa [noWsDashB, hw] using h
      exact ih h' hdrop
    · rw [Bool.not_eq_true] at hw
      rw [wsLen_cons_false a s hw, List.drop_zero] at hdrop
      injection hdrop with h1 h2
      subst h1; subst h2
      simpa [noWsDashB, hw] using h

theorem matchOptRange_zero (s : List Char) (h : noWsDashB s = true) :
    matchOptRange s = 0 := by
  rcases hdrop : s.drop (wsLen s) with _ | ⟨c, rest⟩
  · rw [matchOptRange, hdrop]
  · rw [matchOptRange, hdrop]
    simp [noWsDashB_head_ne_dash s h c rest hdrop]

theorem matchOptClose_zero (s : List Char) (h1 : s.head? ≠ some ']')
    (h2 : s.head? ≠ some ')') : matchOptClose s = 0 := by
  match s with
  | [] => rfl
  | c :: t =>
    have hc1 : (c == ']') = false := by
      rw [beq_eq_false_iff_ne]; rintro rfl; exact h1 rfl
    have hc2 : (c == ')') = false := by
      rw [beq_eq_false_iff_ne]; rintro rfl; exact h2 rfl
    simp [matchOptClose, hc1, hc2]

theorem headSafeB_facts (s : List Char) (h : headSafeB s = true) :
    s.head? ≠ some ':' ∧ s.head? ≠ some ']' ∧ s.head? ≠ some ')' := by
  match s with
  | [] => simp
  | c :: t =>
    simp only [headSafeB, Bool.and_eq_true, Bool.not_eq_true'] at h
    obtain ⟨⟨⟨_, hc⟩, hrb⟩, hrp⟩ := h
    refine ⟨?_, ?_, ?_⟩ <;> simp only [List.head?_cons, ne_eq, Option.some.injEq] <;>
      rintro rfl
    · rw [beq_self_eq_true] at hc; cases hc
    · rw [beq_self_eq_true] at hrb; cases hrb
    · rw [beq_self_eq_true] at hrp; cases hrp

theorem head?_ne (c : Char) (cs : List Char) (x : Char) (h : ¬c = x) :
    (c :: cs).head? ≠ some x := by
  simp [h]

theorem noWsDashB_cons_false (c : Char) (cs : List Char) (hw : isWs c = false)
    (hd : (c == '-') = false) : noWsDashB (c :: cs) = true := by
  simp [noWsDashB, hw, hd]

theorem matchAt_marker (m : Marker) (s : List Char) (hm : m.wfB = true)
    (h1 : headSafeB s = true) (h2 : noWsDashB s = true) :
    matchAt (m.render ++ s) = some (m.render.length, m.startTs) := by
  obtain ⟨hcol, hrb, hrp⟩ := headSafeB_facts s h1
  cases m with
  | bare t =>
    simp only [Marker.wfB] at hm
    obtain ⟨a, t', rfl, ha⟩ := isTsB_head t hm
    have hlb : (a == '[') = false := beq_false_of_digit a '[' ha (by decide)
    have hlp : (a == '(') = false := beq_false_of_digit a '(' ha (by decide)
    have hts : matchTs (a :: (t' ++ s)) = some (t'.length + 1) := by
      simpa using matchTs_of_isTs (a :: t') s hm hcol
    have hdrop : (a :: (t' ++ s)).drop (t'.length + 1) = s := by
      simpa using List.drop_left (a :: t') s
    have htake : (a :: (t' ++ s)).take (t'.length + 1) = a :: t' := by
      simpa using List.take_left (a :: t') s
    simp [Marker.render, Marker.startTs, matchAt, hlb, hlp, matchBody, hts, hdrop,
      htake, matchOptRange_zero s h2, matchOptClose_zero s hrb hrp]
  | bracket t =>
    simp only [Marker.wfB] at hm
    have hts : matchTs (t ++ ']' :: s) = some t.length :=
      matchTs_of_isTs t (']' :: s) hm (head?_ne ']' s ':' (by decide))
    have hdrop : (t ++ ']' :: s).drop t.length = ']' :: s := List.drop_left t (']' :: s)
    have htake : (t ++ ']' :: s).take t.length = t := List.take_left t (']' :: s)
    have hr : matchOptRange (']' :: s) = 0 :=
      matchOptRange_zero _ (noWsDashB_cons_false ']' s (by decide) (by decide))
    have hc : matchOptClose (']' :: s) = 1 := by simp [matchOptClose]
    simp [Marker.render, Marker.startTs, matchAt, matchBody, hts, hdrop, htake, hr, hc]
  | range t1 t2 =>
    simp only [Marker.wfB, Bool.and_eq_true] at hm
    obtain ⟨ht1, ht2⟩ := hm
    obtain ⟨b, t2', ht2eq, hb⟩ := isTsB_head t2 ht2
    have hts1 : matchTs (t1 ++ ' ' :: '-' :: ' ' :: (t2 ++ ')' :: s)) = some t1.length :=
      matchTs_of_isTs t1 _ ht1 (head?_ne ' ' _ ':' (by decide))
    have hts2 : matchTs (t2 ++ ')' :: s) = some t2.length :=
      matchTs_of_isTs t2 (')' :: s) ht2 (head?_ne ')' s ':' (by decide))
    have hw2 : wsLen (' ' :: (t2 ++ ')' :: s)) = 1 := by
      rw [wsLen_cons_true _ _ (by decide)]
      rw [ht2eq, List.cons_append, wsLen_cons_false _ _ (isWs_of_digit b hb)]
    have hr : matchOptRange (' ' :: '-' :: ' ' :: (t2 ++ ')' :: s)) =
        t2.length + 3 := by
      have hw1 : wsLen (' ' :: '-' :: ' ' :: (t2 ++ ')' :: s)) = 1 := by
        rw [wsLen_cons_true _ _ (by decide), wsLen_cons_false _ _ (by decide)]
      rw [matchOptRange, hw1]
      simp only [List.drop_succ_cons, List.drop_zero]
      simp [hw2, hts2]
      omega
    have hdrop1 : (t1 ++ ' ' :: '-' :: ' ' :: (t2 ++ ')' :: s)).drop t1.length =
        ' ' :: '-' :: ' ' :: (t2 ++ ')' :: s) := List.drop_left _ _
    have htake1 : (t1 ++ ' ' :: '-' :: ' ' :: (t2 ++ ')' :: s)).take t1.length = t1 :=
      List.take_left _ _
    have hdrop2 : (t1 ++ ' ' :: '-' :: ' ' :: (t2 ++ ')' :: s)).drop
        (t1.length + (t2.length + 3)) = ')' :: s := by
      rw [← List.drop_drop, hdrop1, Nat.add_comm t2.length 3, ← List.drop_drop]
      have h3 : (' ' :: '-' :: ' ' :: (t2 ++ ')' :: s)).drop 3 = t2 ++ ')' :: s := rfl
      rw [h3, List.drop_left]
    have hc : matchOptClose (')' :: s) = 1 := by simp [matchOptClose]
    have hbody : matchBody (t1 ++ ' ' :: '-' :: ' ' :: (t2 ++ ')' :: s)) =
        some (t1.length + (t2.length + 3) + 1, t1) := by
      simp only [matchBody, hts1, hdrop1, hr, hdrop2, hc, htake1]
    simp only [Marker.render, Marker.startTs, List.cons_append, List.append_assoc,
      List.singleton_append, List.nil_append, matchAt]
    rw [show (('(' == '[') || ('(' == '(')) = true from by decide]
    simp only [if_true, hbody, List.length_cons, List.length_append, List.length_nil,
      Option.some.injEq, Prod.mk.injEq]
    exact ⟨by omega, trivial⟩

theorem matchAt_safe (c : Char) (l : List Char) (h : safeCharB c = true) :
    matchAt (c :: l) = none := by
  obtain ⟨hd, _, _, hlb, _, hlp, _⟩ := safeCharB_facts c h
  have hcore : matchCore (c :: l) = none := by
    match l with
    | [] => rfl
    | b :: l' => simp [matchCore, hd]
  simp [matchAt, hlb, hlp, matchBody, matchTs, hcore]

theorem matchCore_pos (s : List Char) (n : Nat) (h : matchCore s = some n) :
    1 ≤ n := by
  rw [matchCore.eq_def] at h
  repeat' first
  | split at h
  | split_ifs at h
  all_goals first
  | exact Option.noConfusion h
  | (injection h with hn; omega)

theorem matchTs_pos (s : List Char) (n : Nat) (h : matchTs s = some n) : 1 ≤ n := by
  rcases hcore : matchCore s with _ | m
  · unfold matchTs at h
    rw [hcore] at h
    simp at h
  · unfold matchTs at h
    rw [hcore] at h
    simp only [Option.some.injEq] at h
    have := matchCore_pos s m hcore
    omega

theorem matchBody_pos (s : List Char) (n : Nat) (g : List Char)
    (h : matchBody s = some (n, g)) : 1 ≤ n := by
  rcases hts : matchTs s with _ | m
  · unfold matchBody at h
    rw [hts] at h
    simp at h
  · unfold matchBody at h
    rw [hts] at h
    simp only [Option.some.injEq, Prod.mk.injEq] at h
    have := matchTs_pos s m hts
    omega

theorem matchAt_pos (s : List Char) (n : Nat) (g : List Char)
    (h : matchAt s = some (n, g)) : 1 ≤ n := by
  match s with
  | [] => simp [matchAt] at h
  | c :: rest =>
    simp only [matchAt] at h
    split_ifs at h with hc
    · rcases hb : matchBody rest with _ | ⟨n', g'⟩
      · rw [hb] at h
        simp at h
      · rw [hb] at h
        simp only [Option.some.injEq, Prod.mk.injEq] at h
        have := matchBody_pos rest n' g' hb
        omega
    · exact matchBody_pos _ _ _ h

theorem linkifyFuel_irrel (f₁ : Nat) : ∀ (f₂ : Nat) (s : List Char),
    s.length ≤ f₁ → s.length ≤ f₂ → linkifyFuel f₁ s = linkifyFuel f₂ s := by
  induction f₁ with
  | zero =>
    intro f₂ s h1 h2
    have hs : s = [] := List.length_eq_zero.mp (Nat.le_zero.mp h1)
    subst hs
    cases f₂ <;> rfl
  | succ f ih =>
    intro f₂ s h1 h2
    match s with
    | [] => cases f₂ <;> rfl
    | c :: cs =>
      cases f₂ with
      | zero => simp at h2
      | succ f₂' =>
        simp only [List.length_cons, Nat.add_le_add_iff_right] at h1 h2
        rcases hm : matchAt (c :: cs) with _ | ⟨n, g⟩
        · simp only [linkifyFuel, hm]
          exact congrArg (c :: ·) (ih f₂' cs h1 h2)
        · simp only [linkifyFuel, hm]
          have hp := matchAt_pos _ _ _ hm
          have hlen : ((c :: cs).drop n).length ≤ cs.length := by
            rw [List.length_drop]
            simp only [List.length_cons]
            omega
          exact congrArg (fun l => anchorFor ((c :: cs).take n) g ++ l)
            (ih f₂' _ (le_trans hlen h1) (le_trans hlen h2))

theorem linkify_step_none (c : Char) (cs : List Char)
    (h : matchAt (c :: cs) = none) :
    linkifyTimestamps (c :: cs) = c :: linkifyTimestamps cs := by
  unfold linkifyTimestamps
  simp only [List.length_cons, linkifyFuel, h]

theorem linkify_step_some (s : List Char) (n : Nat) (g : List Char)
    (h : matchAt s = some (n, g)) :
    linkifyTimestamps s = anchorFor (s.take n) g ++ linkifyTimestamps (s.drop n) := by
  match s with
  | [] => simp [matchAt] at h
  | c :: cs =>
    unfold linkifyTimestamps
    simp only [List.length_cons, linkifyFuel, h]
    congr 1
    have hp := matchAt_pos _ _ _ h
    have hlen : ((c :: cs).drop n).length ≤ cs.length := by
      rw [List.length_drop]
      simp only [List.length_cons]
      omega
    exact linkifyFuel_irrel cs.length ((c :: cs).drop n).length _ hlen (le_refl _)

theorem linkify_safe (t s : List Char) (h : safeStrB t = true) :
    linkifyTimestamps (t ++ s) = t ++ linkifyTimestamps s := by
  induction t with
  | nil => simp
  | cons c t' ih =>
    have hc : safeCharB c = true ∧ safeStrB t' = true := by
      simpa [safeStrB, List.all_cons, Bool.and_eq_true] using h
    rw [List.cons_append, linkify_step_none c (t' ++ s) (matchAt_safe c _ hc.1),
      ih hc.2]
    rfl

theorem assemble_cons (c : Char) (t : List Char) (parts : List (Marker × List Char)) :
    assemble (c :: t) parts = c :: assemble t parts := by
  cases parts with
  | nil => rfl
  | cons p rest => simp [assemble]

theorem marker_render_head (m : Marker) (hm : m.wfB = true) :
    ∃ a l, m.render = a :: l ∧ isWs a = false ∧ (a == '-') = false := by
  cases m with
  | bare t =>
    simp only [Marker.wfB] at hm
    obtain ⟨a, t', rfl, ha⟩ := isTsB_head t hm
    exact ⟨a, t', rfl, isWs_of_digit a ha, beq_false_of_digit a '-' ha (by decide)⟩
  | bracket t => exact ⟨'[', t ++ [']'], rfl, by decide, by decide⟩
  | range t1 t2 =>
    exact ⟨'(', t1 ++ ' ' :: '-' :: ' ' :: t2 ++ [')'], rfl, by decide, by decide⟩

theorem headSafeB_assemble (t : List Char) (parts : List (Marker × List Char))
    (hs : safeStrB t = true) (hne : (parts.isEmpty || !t.isEmpty) = true) :
    headSafeB (assemble t parts) = true := by
  cases t with
  | nil =>
    have hp : parts = [] := by
      cases parts with
      | nil => rfl
      | cons p r => simp [List.isEmpty] at hne
    subst hp
    rfl
  | cons c t' =>
    have hc : safeCharB c = true := by
      have := (by simpa [safeStrB, List.all_cons, Bool.and_eq_true] using hs :
        safeCharB c = true ∧ safeStrB t' = true)
      exact this.1
    obtain ⟨hd, hcol, _, _, hrb, _, hrp⟩ := safeCharB_facts c hc
    rw [assemble_cons]
    simp [headSafeB, hd, hcol, hrb, hrp]

theorem noWsDashB_assemble (t : List Char) (parts : List (Marker × List Char))
    (hs : safeStrB t = true) (hg : GoodB parts = true) :
    noWsDashB (assemble t parts) = true := by
  induction t with
  | nil =>
    cases parts with
    | nil => rfl
    | cons p rest =>
      obtain ⟨m, t'⟩ := p
      have hwf : m.wfB = true := by
        simp only [GoodB, Bool.and_eq_true] at hg
        exact hg.1.1.1
      obtain ⟨a, l, hrend, hws, hdash⟩ := marker_render_head m hwf
      simp only [assemble, List.nil_append]
      rw [hrend, List.cons_append]
      exact noWsDashB_cons_false a _ hws hdash
  | cons c t'' ih =>
    have hc : safeCharB c = true ∧ safeStrB t'' = true := by
      simpa [safeStrB, List.all_cons, Bool.and_eq_true] using hs
    rw [assemble_cons]
    cases hw : isWs c with
    | false =>
      exact noWsDashB_cons_false c _ hw (safeCharB_facts c hc.1).2.2.1
    | true =>
      simp only [noWsDashB, hw, if_true]
      exact ih hc.2

/-- Claim C2: for every answer string assembled from timestamp markers of
the forms `[MM:SS]`, `(MM:SS - MM:SS)` or bare `MM:SS` (each timestamp
optionally carrying a third `:SS` field), separated by text that cannot
itself interact with the regex, `linkifyTimestamps` replaces each whole
marker by a `time-link` anchor whose `data-time` attribute is
`timestampToSeconds` of the marker's start timestamp, and leaves the
surrounding text unchanged. -/
theorem claim_C2_linkify_markers (t₀ : List Char) (parts : List (Marker × List Char))
    (h₀ : safeStrB t₀ = true) (hp : GoodB parts = true) :
    linkifyTimestamps (assemble t₀ parts) = assembleLinked t₀ parts := by
  induction parts generalizing t₀ with
  | nil =>
    have h := linkify_safe t₀ [] h₀
    rw [List.append_nil, show linkifyTimestamps [] = [] from rfl,
      List.append_nil] at h
    exact h
  | cons p rest ih =>
    obtain ⟨m, t'⟩ := p
    simp only [GoodB, Bool.and_eq_true] at hp
    obtain ⟨⟨⟨hwf, hst'⟩, hne⟩, hgrest⟩ := hp
    have h1 : headSafeB (assemble t' rest) = true := headSafeB_assemble t' rest hst' hne
    have h2 : noWsDashB (assemble t' rest) = true :=
      noWsDashB_assemble t' rest hst' hgrest
    have hmk := matchAt_marker m (assemble t' rest) hwf h1 h2
    calc linkifyTimestamps (assemble t₀ ((m, t') :: rest))
        = linkifyTimestamps (t₀ ++ (m.render ++ assemble t' rest)) := by
          simp [assemble, List.append_assoc]
      _ = t₀ ++ linkifyTimestamps (m.render ++ assemble t' rest) :=
          linkify_safe t₀ _ h₀
      _ = t₀ ++ (anchorFor m.render m.startTs ++
            linkifyTimestamps (assemble t' rest)) := by
          rw [linkify_step_some _ _ _ hmk, List.take_left, List.drop_left]
      _ = t₀ ++ (anchorFor m.render m.startTs ++ assembleLinked t' rest) := by
          rw [ih t' hst' hgrest]
      _ = assembleLinked t₀ ((m, t') :: rest) := by
          simp [assembleLinked]

theorem claim_C2_linkify_markers_witness :
    (safeStrB (str "See ") = true ∧
     GoodB [(Marker.bracket (str "12:34"), str " and "),
            (Marker.range (str "1:02") (str "1:05"), str " end")] = true) ∧
    linkifyTimestamps (assemble (str "See ")
        [(Marker.bracket (str "12:34"), str " and "),
         (Marker.range (str "1:02") (str "1:05"), str " end")]) =
      assembleLinked (str "See ")
        [(Marker.bracket (str "12:34"), str " and "),
         (Marker.range (str "1:02") (str "1:05"), str " end")] :=
  ⟨⟨by decide, by decide⟩,
   claim_C2_linkify_markers (str "See ")
     [(Marker.bracket (str "12:34"), str " and "),
      (Marker.range (str "1:02") (str "1:05"), str " end")]
     (by decide) (by decide)⟩

theorem takeWhile_all {α : Type} (p : α → Bool) (l : List α)
    (h : ∀ c ∈ l, p c = true) : l.takeWhile p = l := by
  induction l with
  | nil => rfl
  | cons c cs ih =>
    simp [List.takeWhile_cons, h c (List.mem_cons_self c cs),
      ih (fun x hx => h x (List.mem_cons_of_mem c hx))]

theorem digitChar_isDigit (n : Nat) (h : n < 10) : (digitChar n).isDigit = true := by
  interval_cases n <;> decide

theorem digitVal_digitChar (n : Nat) (h : n < 10) : digitVal (digitChar n) = n := by
  interval_cases n <;> decide

theorem parseDigs_snoc (l : List Char) (c : Char) :
    parseDigs (l ++ [c]) = 10 * parseDigs l + digitVal c := by
  simp [parseDigs, List.foldl_append]

theorem natDigitsAux_spec (fuel : Nat) : ∀ n, n < fuel →
    (∀ c ∈ natDigitsAux fuel n, c.isDigit = true) ∧ natDigitsAux fuel n ≠ [] ∧
    parseDigs (natDigitsAux fuel n) = n := by
  induction fuel with
  | zero => intro n h; exact absurd h (Nat.not_lt_zero n)
  | succ f ih =>
    intro n h
    by_cases h10 : n < 10
    · simp only [natDigitsAux, if_pos h10]
      refine ⟨?_, by simp, ?_⟩
      · intro c hc
        rw [List.mem_singleton] at hc
        subst hc
        exact digitChar_isDigit n h10
      · simp [parseDigs, digitVal_digitChar n h10]
    · have hdiv : n / 10 < n := Nat.div_lt_self (by omega) (by omega)
      have hn10 : n / 10 < f := by omega
      obtain ⟨ihd, ihne, ihval⟩ := ih (n / 10) hn10
      simp only [natDigitsAux, if_neg h10]
      refine ⟨?_, by simp, ?_⟩
      · intro c hc
        rw [List.mem_append, List.mem_singleton] at hc
        rcases hc with hc | hc
        · exact ihd c hc
        · subst hc
          exact digitChar_isDigit (n % 10) (Nat.mod_lt n (by omega))
      · rw [parseDigs_snoc, ihval, digitVal_digitChar (n % 10) (Nat.mod_lt n (by omega))]
        omega

theorem natDigits_digits (n : Nat) : ∀ c ∈ natDigits n, c.isDigit = true :=
  (natDigitsAux_spec (n + 1) n (by omega)).1

theorem natDigits_ne_nil (n : Nat) : natDigits n ≠ [] :=
  (natDigitsAux_spec (n + 1) n (by omega)).2.1

theorem parseDigs_natDigits (n : Nat) : parseDigs (natDigits n) = n :=
  (natDigitsAux_spec (n + 1) n (by omega)).2.2

theorem jsParseInt_digits (l : List Char) (hne : l ≠ [])
    (hd : ∀ c ∈ l, c.isDigit = true) :
    jsParseInt l = some ((parseDigs l : Nat) : Int) := by
  obtain ⟨c, cs, rfl⟩ : ∃ c cs, l = c :: cs := by
    cases l with
    | nil => exact absurd rfl hne
    | cons c cs => exact ⟨c, cs, rfl⟩
  have hc := hd c (List.mem_cons_self c cs)
  have hws : isWs c = false := isWs_of_digit c hc
  have hdw : (c :: cs).dropWhile isWs = c :: cs := by
    simp [List.dropWhile_cons, hws]
  have hminus : (c == '-') = false := beq_false_of_digit c '-' hc (by decide)
  have hplus : (c == '+') = false := beq_false_of_digit c '+' hc (by decide)
  have htw : (c :: cs).takeWhile Char.isDigit = c :: cs :=
    takeWhile_all Char.isDigit (c :: cs) hd
  simp [jsParseInt, hdw, hminus, hplus, parseDigitsOpt, htw]

theorem pad2_digits (n : Nat) (h : n < 100) : ∀ c ∈ pad2 n, c.isDigit = true := by
  intro c hc
  simp only [pad2, List.mem_cons, List.not_mem_nil, or_false] at hc
  rcases hc with hc | hc <;> subst hc
  · exact digitChar_isDigit (n / 10) (by omega)
  · exact digitChar_isDigit (n % 10) (by omega)

theorem parseDigs_pad2 (n : Nat) (h : n < 100) : parseDigs (pad2 n) = n := by
  simp [pad2, parseDigs, digitVal_digitChar (n / 10) (by omega : n / 10 < 10),
    digitVal_digitChar (n % 10) (by omega : n % 10 < 10)]
  omega

theorem jsParseInt_pad2 (n : Nat) (h : n < 100) :
    jsParseInt (pad2 n) = some (n : Int) := by
  rw [jsParseInt_digits (pad2 n) (by simp [pad2]) (pad2_digits n h),
    parseDigs_pad2 n h]

theorem jsParseInt_natDigits (n : Nat) :
    jsParseInt (natDigits n) = some (n : Int) := by
  rw [jsParseInt_digits (natDigits n) (natDigits_ne_nil n) (natDigits_digits n),
    parseDigs_natDigits n]

theorem no_colon_of_digits (l : List Char) (hd : ∀ c ∈ l, c.isDigit = true) :
    ∀ c ∈ l, ¬c = ':' := by
  intro c hc heq
  subst heq
  exact absurd (hd ':' hc) (by decide)

theorem splitColon_no_colon (l : List Char) (h : ∀ c ∈ l, ¬c = ':') :
    splitColon l = [l] := by
  induction l with
  | nil => rfl
  | cons c cs ih =>
    have hc : (c == ':') = false := by
      rw [beq_eq_false_iff_ne]
      exact h c (List.mem_cons_self c cs)
    simp [splitColon, hc, ih (fun x hx => h x (List.mem_cons_of_mem c hx))]

theorem splitColon_append (a r : List Char) (h : ∀ c ∈ a, ¬c = ':') :
    splitColon (a ++ ':' :: r) = a :: splitColon r := by
  induction a with
  | nil => simp [splitColon]
  | cons c a' ih =>
    have hc : (c == ':') = false := by
      rw [beq_eq_false_iff_ne]
      exact h c (List.mem_cons_self c a')
    simp [splitColon, hc, ih (fun x hx => h x (List.mem_cons_of_mem c hx))]

/-- Claim C1: formatting any non-negative duration as its canonical label
(`MM:SS` when the hour component is zero, `HH:MM:SS` otherwise) and parsing
that label back with `timestampToSeconds` recovers exactly the original
number of seconds (so in particular within the spec's one-second
tolerance). -/
theorem claim_C1_citation_roundtrip (d : Nat) :
    timestampToSeconds (map_to_citation d) = some (d : Int) := by
  by_cases h : d < 3600
  · have hmm : d / 60 < 100 := by omega
    have hss : d % 60 < 100 := by omega
    unfold map_to_citation
    rw [if_pos h]
    unfold timestampToSeconds
    rw [splitColon_append (pad2 (d / 60)) _ (no_colon_of_digits _ (pad2_digits _ hmm)),
      splitColon_no_colon (pad2 (d % 60)) (no_colon_of_digits _ (pad2_digits _ hss))]
    simp [tsSum, jsParseInt_pad2 _ hss, jsParseInt_pad2 _ hmm]
    omega
  · have hh : ∀ c ∈ natDigits (d / 3600), ¬c = ':' :=
      no_colon_of_digits _ (natDigits_digits (d / 3600))
    have hmm : d % 3600 / 60 < 100 := by omega
    have hss : d % 60 < 100 := by omega
    unfold map_to_citation
    rw [if_neg h]
    unfold timestampToSeconds
    simp only [List.append_assoc, List.cons_append]
    rw [splitColon_append (natDigits (d / 3600)) _ hh,
      splitColon_append (pad2 (d % 3600 / 60)) _
        (no_colon_of_digits _ (pad2_digits _ hmm)),
      splitColon_no_colon (pad2 (d % 60)) (no_colon_of_digits _ (pad2_digits _ hss))]
    simp [tsSum, jsParseInt_pad2 _ hss, jsParseInt_pad2 _ hmm, jsParseInt_natDigits]
    omega

theorem lookupSession_cons (k : List Char) (v : SessionRecord)
    (rest : List (List Char × SessionRecord)) (id : List Char) :
    lookupSession ((k, v) :: rest) id =
      if (k == id) = true then some v else lookupSession rest id := by
  simp only [lookupSession, List.find?]
  cases hk : (k == id) with
  | true => simp [hk]
  | false => simp [hk]

theorem appendMessageStore_cons (k : List Char) (v : SessionRecord)
    (rest : List (List Char × SessionRecord)) (id : List Char) (msg : ChatMsg)
    (now : List Char) :
    appendMessageStore ((k, v) :: rest) (some id) true msg now =
      (if (k == id) = true then
        (k, { v with chatHistory := v.chatHistory ++ [msg], timestamp := now })
       else (k, v)) :: appendMessageStore rest (some id) true msg now := by
  simp only [appendMessageStore, List.map_cons]

theorem filter_keep_cons (ids : List (List Char)) (k : List Char)
    (v : SessionRecord) (rest : List (List Char × SessionRecord))
    (h : ids.contains k = false) :
    ((k, v) :: rest).filter (fun p => !(ids.contains p.1)) =
      (k, v) :: rest.filter (fun p => !(ids.contains p.1)) := by
  simp only [List.filter_cons, h, Bool.not_false, if_pos trivial]

theorem filter_drop_cons (ids : List (List Char)) (k : List Char)
    (v : SessionRecord) (rest : List (List Char × SessionRecord))
    (h : ids.contains k = true) :
    ((k, v) :: rest).filter (fun p => !(ids.contains p.1)) =
      rest.filter (fun p => !(ids.contains p.1)) := by
  simp only [List.filter_cons, h, Bool.not_true]
  rw [if_neg (by simp)]

theorem lookup_update_eq (sessions : List (List Char × SessionRecord))
    (id : List Char) (msg : ChatMsg) (now : List Char) (s : SessionRecord)
    (h : lookupSession sessions id = some s) :
    lookupSession (appendMessageStore sessions (some id) true msg now) id =
      some { timestamp := now, videoUrl := s.videoUrl,
             chatHistory := s.chatHistory ++ [msg],
             transcriptData := s.transcriptData } := by
  induction sessions with
  | nil => simp [lookupSession] at h
  | cons p rest ih =>
    obtain ⟨k, v⟩ := p
    rw [appendMessageStore_cons]
    by_cases hk : (k == id) = true
    · rw [lookupSession_cons, if_pos hk] at h
      injection h with h'
      subst h'
      rw [if_pos hk, lookupSession_cons, if_pos hk]
    · rw [lookupSession_cons, if_neg hk] at h
      rw [if_neg hk, lookupSession_cons, if_neg hk]
      exact ih h

theorem lookup_update_ne (sessions : List (List Char × SessionRecord))
    (id : List Char) (msg : ChatMsg) (now : List Char) (id' : List Char)
    (h : (id' == id) = false) :
    lookupSession (appendMessageStore sessions (some id) true msg now) id' =
      lookupSession sessions id' := by
  have hne : id' ≠ id := beq_eq_false_iff_ne.mp h
  induction sessions with
  | nil => rfl
  | cons p rest ih =>
    obtain ⟨k, v⟩ := p
    rw [appendMessageStore_cons]
    by_cases hk : (k == id) = true
    · have hkid' : ¬(k == id') = true := by
        intro heq
        rw [beq_iff_eq] at heq hk
        exact hne (by rw [← heq, hk])
      rw [if_pos hk, lookupSession_cons, lookupSession_cons, if_neg hkid',
        if_neg hkid']
      exact ih
    · rw [if_neg hk, lookupSession_cons, lookupSession_cons]
      by_cases hk' : (k == id') = true
      · rw [if_pos hk', if_pos hk']
      · rw [if_neg hk', if_neg hk']
        exact ih

theorem lookup_filter_contains (ids : List (List Char))
    (sessions : List (List Char × SessionRecord)) (id' : List Char) :
    lookupSession (sessions.filter (fun p => !(ids.contains p.1))) id' =
      (if ids.contains id' = true then none else lookupSession sessions id') := by
  induction sessions with
  | nil => cases hc : ids.contains id' <;> simp [lookupSession, hc]
  | cons p rest ih =>
    obtain ⟨k, v⟩ := p
    cases hck : ids.contains k with
    | true =>
      rw [filter_drop_cons ids k v rest hck, ih]
      by_cases hc' : ids.contains id' = true
      · rw [if_pos hc', if_pos hc']
      · rw [if_neg hc', if_neg hc', lookupSession_cons,
          if_neg (by intro heq; rw [beq_iff_eq] at heq; subst heq; exact hc' hck)]
    | false =>
      rw [filter_keep_cons ids k v rest hck]
      by_cases hk : (k == id') = true
      · have hc' : ids.contains id' = false := by
          rw [beq_iff_eq] at hk
          rw [← hk]
          exact hck
        rw [lookupSession_cons, if_pos hk, if_neg (by rw [hc']; simp),
          lookupSession_cons, if_pos hk]
      · rw [lookupSession_cons, if_neg hk, ih]
        by_cases hc' : ids.contains id' = true
        · rw [if_pos hc', if_pos hc']
        · rw [if_neg hc', if_neg hc', lookupSession_cons, if_neg hk]

/-- Claim C3: with zero transcript segment nodes, `surgicalExtract` returns
`null` (not an empty list), and the resync handler then issues no
`/save_transcript` request, stores no local session record, and reports the
sync failure to the user. -/
theorem claim_C3_empty_transcript (serverOk : Bool) (tabUrl now newId : List Char) :
    surgicalExtract [] = none ∧
    resyncAfterScrape (surgicalExtract []) serverOk tabUrl now newId =
      { saveRequest := none, newSession := none, syncFailed := true } := by
  exact ⟨by decide, rfl⟩

/-- Claim C4: `surgicalExtract` maps each segment node to a record whose
`time` defaults to "0:00" when the timestamp element is missing and whose
`text` defaults to the empty string when the text element is missing, so
every emitted record has both fields defined. -/
theorem claim_C4_segment_defaults (segments : List SegmentNode)
    (recs : List TranscriptRecord) (h : surgicalExtract segments = some recs) :
    recs = segments.map extractRecord ∧
    ∀ s ∈ segments,
      (s.timeEl = none → (extractRecord s).time = str "0:00") ∧
      (s.textEl = none → (extractRecord s).text = []) := by
  constructor
  · unfold surgicalExtract at h
    split_ifs at h
    all_goals first
    | exact Option.noConfusion h
    | (injection h with h'; exact h'.symm)
  · intro s hs
    constructor
    · intro ht
      simp [extractRecord, jsStrOrDefault, ht]
    · intro ht
      simp [extractRecord, jsStrOrDefault, ht]

theorem claim_C4_segment_defaults_witness :
    [({ time := str "0:00", text := [] } : TranscriptRecord)] =
      [({ timeEl := none, textEl := none } : SegmentNode)].map extractRecord ∧
    ((({ timeEl := none, textEl := none } : SegmentNode)).timeEl = none →
      (extractRecord { timeEl := none, textEl := none }).time = str "0:00") ∧
    ((({ timeEl := none, textEl := none } : SegmentNode)).textEl = none →
      (extractRecord { timeEl := none, textEl := none }).text = []) :=
  ⟨(claim_C4_segment_defaults [{ timeEl := none, textEl := none }]
      [{ time := str "0:00", text := [] }] (by decide)).1,
   (claim_C4_segment_defaults [{ timeEl := none, textEl := none }]
      [{ time := str "0:00", text := [] }] (by decide)).2
      { timeEl := none, textEl := none } (by decide)⟩

/-- Claim C5: `loadSpecificSession` POSTs the stored transcript snapshot to
`/save_transcript`; only on an ok response are the chat messages replayed
and the inputs enabled, and otherwise the failure message is shown and the
inputs stay disabled. -/
theorem claim_C5_restore_session (sessions : List (List Char × SessionRecord))
    (id : List Char) (s : SessionRecord) (responseOk : Bool)
    (h : lookupSession sessions id = some s) :
    (loadSpecificSession sessions id responseOk).saveRequest =
      some s.transcriptData ∧
    (responseOk = true →
      (loadSpecificSession sessions id responseOk).replayed = s.chatHistory ∧
      (loadSpecificSession sessions id responseOk).inputsEnabled = true) ∧
    (responseOk = false →
      (loadSpecificSession sessions id responseOk).failMsgShown = true ∧
      (loadSpecificSession sessions id responseOk).inputsEnabled = false) := by
  unfold loadSpecificSession
  rw [h]
  cases responseOk <;> simp

theorem claim_C5_restore_session_witness :
    lookupSession [(str "1", wSession)] (str "1") = some wSession ∧
    ((loadSpecificSession [(str "1", wSession)] (str "1") false).saveRequest =
      some wSession.transcriptData ∧
     (false = true →
       (loadSpecificSession [(str "1", wSession)] (str "1") false).replayed =
         wSession.chatHistory ∧
       (loadSpecificSession [(str "1", wSession)] (str "1") false).inputsEnabled =
         true) ∧
     (false = false →
       (loadSpecificSession [(str "1", wSession)] (str "1") false).failMsgShown =
         true ∧
       (loadSpecificSession [(str "1", wSession)] (str "1") false).inputsEnabled =
         false)) :=
  ⟨by decide,
   claim_C5_restore_session [(str "1", wSession)] (str "1") wSession false
     (by decide)⟩

/-- Claim C6: every `/chat` request carries exactly the trimmed question and
a mode that is "detailed" when the detailed checkbox is checked and
"concise" otherwise; no other mode value is ever sent. -/
theorem claim_C6_chat_request (inputValue : List Char) (isDetailed : Bool)
    (hfToken : Option (List Char)) (req : ChatRequest)
    (h : askHandler inputValue isDetailed hfToken = some req) :
    req.question = jsTrim inputValue ∧
    req.mode = (if isDetailed then str "detailed" else str "concise") ∧
    (req.mode = str "detailed" ∨ req.mode = str "concise") := by
  unfold askHandler at h
  split_ifs at h with hq htok hdet
  · injection h with h'
    subst h'
    refine ⟨rfl, ?_, Or.inl rfl⟩
    rw [if_pos hdet]
  · injection h with h'
    subst h'
    refine ⟨rfl, ?_, Or.inr rfl⟩
    rw [if_neg hdet]

theorem claim_C6_chat_request_witness :
    askHandler (str " why? ") true (some (str "hf_x")) =
      some { question := str "why?", mode := str "detailed" } ∧
    ({ question := str "why?", mode := str "detailed" } : ChatRequest).question =
      jsTrim (str " why? ") ∧
    ({ question := str "why?", mode := str "detailed" } : ChatRequest).mode =
      (if true then str "detailed" else str "concise") ∧
    (({ question := str "why?", mode := str "detailed" } : ChatRequest).mode =
       str "detailed" ∨
     ({ question := str "why?", mode := str "detailed" } : ChatRequest).mode =
       str "concise") :=
  ⟨by decide,
   claim_C6_chat_request (str " why? ") true (some (str "hf_x"))
     { question := str "why?", mode := str "detailed" } (by decide)⟩

/-- Claim C7: the linking regex does not require brackets around a
timestamp, so a bare colon-separated number pair that is not a timestamp —
here the vote ratio "3:45" — is still replaced by a clickable `time-link`
anchor. -/
theorem claim_C7_bare_false_positive :
    linkifyTimestamps (str "The ratio was 3:45 in favor") =
      str "The ratio was <a href=\"#\" class=\"time-link\" data-time=\"225\">3:45</a> in favor" := by
  decide

/-- Claim C8: the session record stored by the resync handler carries all
four fields (timestamp, videoUrl, chatHistory, transcriptData), and the
storage effect of `appendMessage` with `shouldSave` on an existing record
only appends the one message and refreshes the timestamp, preserving the
other fields and every other session. -/
theorem claim_C8_session_fields (sessions : List (List Char × SessionRecord))
    (id : List Char) (s : SessionRecord) (msg : ChatMsg)
    (now tabUrl newId newNow : List Char) (data : List TranscriptRecord)
    (h : lookupSession sessions id = some s) :
    (resyncAfterScrape (some data) true tabUrl now newId).newSession =
      some (newId, { timestamp := now, videoUrl := tabUrl, chatHistory := [],
                     transcriptData := data }) ∧
    lookupSession (appendMessageStore sessions (some id) true msg newNow) id =
      some { timestamp := newNow, videoUrl := s.videoUrl,
             chatHistory := s.chatHistory ++ [msg],
             transcriptData := s.transcriptData } ∧
    ∀ id', (id' == id) = false →
      lookupSession (appendMessageStore sessions (some id) true msg newNow) id' =
        lookupSession sessions id' :=
  ⟨rfl, lookup_update_eq sessions id msg newNow s h,
   fun id' h' => lookup_update_ne sessions id msg newNow id' h'⟩

theorem claim_C8_session_fields_witness :
    lookupSession [(str "1", wSession)] (str "1") = some wSession ∧
    ((resyncAfterScrape (some []) true (str "u") (str "t0") (str "1")).newSession =
      some (str "1", { timestamp := str "t0", videoUrl := str "u",
                       chatHistory := [], transcriptData := [] }) ∧
     lookupSession (appendMessageStore [(str "1", wSession)] (some (str "1")) true
        wMsg (str "t1")) (str "1") =
      some { timestamp := str "t1", videoUrl := wSession.videoUrl,
             chatHistory := wSession.chatHistory ++ [wMsg],
             transcriptData := wSession.transcriptData } ∧
     ∀ id', (id' == str "1") = false →
       lookupSession (appendMessageStore [(str "1", wSession)] (some (str "1")) true
          wMsg (str "t1")) id' =
         lookupSession [(str "1", wSession)] id') :=
  ⟨by decide,
   claim_C8_session_fields [(str "1", wSession)] (str "1") wSession wMsg
     (str "t0") (str "u") (str "1") (str "t1") [] (by decide)⟩

/-- Claim C9: when the `/clear_context` fetch throws, `performFullClear`
leaves the stored sessions object entirely unchanged and keeps
`currentSessionId`; local state is mutated only after the server call
succeeds. -/
theorem claim_C9_clear_context_failure (sessions : List (List Char × SessionRecord))
    (currentId : Option (List Char)) (confirmed : Bool) :
    (performFullClear sessions currentId confirmed true).sessions = sessions ∧
    (performFullClear sessions currentId confirmed true).currentId = currentId := by
  cases currentId <;> cases confirmed <;> simp [performFullClear]

/-- Claim C10: `clearSelectedHistory` deletes exactly the checked session
ids (every unselected record is still found unchanged), and with no
checkbox checked it returns without writing to storage. -/
theorem claim_C10_clear_selected (checkedIds : List (List Char))
    (sessions : List (List Char × SessionRecord)) (id' : List Char) :
    clearSelectedHistory [] sessions = (sessions, false) ∧
    lookupSession (clearSelectedHistory checkedIds sessions).1 id' =
      (if checkedIds.contains id' = true then none
       else lookupSession sessions id') ∧
    (clearSelectedHistory checkedIds sessions).2 = !checkedIds.isEmpty := by
  refine ⟨rfl, ?_, ?_⟩
  · cases checkedIds with
    | nil =>
      have h0 : ([] : List (List Char)).contains id' = false := rfl
      simp [clearSelectedHistory, h0]
    | cons i ids =>
      have hstep : clearSelectedHistory (i :: ids) sessions =
          (sessions.filter (fun p => !((i :: ids).contains p.1)), true) := by
        unfold clearSelectedHistory
        rw [if_neg (by simp)]
      rw [hstep]
      exact lookup_filter_contains (i :: ids) sessions id'
  · cases checkedIds with
    | nil => rfl
    | cons i ids =>
      have hstep : clearSelectedHistory (i :: ids) sessions =
          (sessions.filter (fun p => !((i :: ids).contains p.1)), true) := by
        unfold clearSelectedHistory
        rw [if_neg (by simp)]
      rw [hstep]
      simp
